import Mathlib

/-!
Verification of the protochess repository against its specification.

The repository's visible sources are `protochess-server-rs/src/room.rs`
(the server room loop) and `protochess-engine-rs/src/main.rs` (a driver
loop).  The engine crate itself (Position, MoveGenerator, search) is not
among the visible sources, so its operations are modelled from the
specification's words (each such definition says so in its doc comment);
the room loop is embedded from `room.rs` directly.
-/

/-! ## Engine data model -/

/-- Modelled from the spec: board dimensions, `width × height, both positive
integers` (§3); `room.rs` reads `current_position.dimensions.width/height`. -/
structure Dimensions where
  width : Nat
  height : Nat
deriving DecidableEq

/-- Modelled from the spec: a Piece is `{owner: player index (0 or 1),
piece_type: a symbol identifying movement rules, position}` (§3); the server
reads it back as an `(owner, x, y, piece_type)` tuple (§6). -/
structure Piece where
  owner : Nat
  x : Nat
  y : Nat
  piece_type : Char
deriving DecidableEq

/-- Modelled from the spec: a Tile is a `terrain marker per square (type
tag)` (§3); the server reads it as an `(x, y, tile_type)` tuple (§6). -/
structure Tile where
  x : Nat
  y : Nat
  tile_type : Char
deriving DecidableEq

/-- Modelled from the spec: the Position aggregate (§3): dimensions, the
square→piece and square→tile mappings (at most one piece per square), the
side-to-move index `whos_turn` (the name `room.rs` reads), castling-equivalent
rights bits, and a ply counter. -/
structure Position where
  dimensions : Dimensions
  pieces : List Piece
  tiles : List Tile
  whos_turn : Nat
  rights : List Bool
  ply : Nat
deriving DecidableEq

/-- Modelled from the spec: a Move is `{from: square, to: square, optional
promotion piece_type}` (§3); the captured-piece record lives in the undo
token produced by `apply` (§4.3). -/
structure Move where
  fromSq : Nat × Nat
  toSq : Nat × Nat
  promotion : Option Char
deriving DecidableEq

/-- Modelled from the spec (§4.3): `apply` returns `enough information to
reverse all of it`: the moved piece as it stood, the captured piece if any,
the destination square, and the prior side-to-move, ply and rights. -/
structure UndoToken where
  moved : Option Piece
  captured : Option Piece
  toSq : Nat × Nat
  prev_turn : Nat
  prev_ply : Nat
  prev_rights : List Bool
deriving DecidableEq

/-- Modelled from the spec: movement rules are `keyed by a type symbol …
a mapping from type tag to a movement-rule descriptor` (§9) and
`pseudo_moves … must be a pure function of Position's current state` (§4.1);
royal designation (`piece_type designated "king"-equivalent`, §4.1) and the
data-driven rights rule (§4.3, §9 open question) are part of the variant
configuration, so the whole development is parametric in one `Rules` value
(the stateless shared move-generator of §9). -/
structure Rules where
  pseudo_moves : Position → Nat × Nat → List (Nat × Nat)
  royal_types : List Char
  rights_update : Position → Move → List Bool

/-- First piece of the list standing on `sq`. -/
def pieceAtList (l : List Piece) (sq : Nat × Nat) : Option Piece :=
  l.find? (fun pc => (pc.x, pc.y) == sq)

/-- The square→piece mapping of the spec's data model (§3). -/
def pieceAt (p : Position) (sq : Nat × Nat) : Option Piece :=
  pieceAtList p.pieces sq

/-- Remove every piece standing on `sq`. -/
def removeAt (l : List Piece) (sq : Nat × Nat) : List Piece :=
  l.filter (fun pc => !((pc.x, pc.y) == sq))

/-- Modelled from the spec: the 2-player opponent of a player index (§3:
`player index (0 or 1)`; §4.1 `is_attacked … by the opponent`). -/
def opponent_of (player : Nat) : Nat :=
  (player + 1) % 2

/-! ## Attack & legality (spec §4.1) -/

/-- Modelled from the spec (§4.1): `is_attacked(position, square, by_player)`
is true if any piece owned by `by_player` has `square` in its pseudo-move
destination set. -/
def is_attacked (R : Rules) (p : Position) (sq : Nat × Nat) (by_player : Nat) : Bool :=
  p.pieces.any (fun pc => pc.owner == by_player && (R.pseudo_moves p (pc.x, pc.y)).contains sq)

/-- Modelled from the spec (§4.1): `in_check(position, player)` locates
`player`'s royal piece(s) and returns `is_attacked` for each such square by
the opponent; with no royal piece it returns false. -/
def in_check (R : Rules) (p : Position) (player : Nat) : Bool :=
  p.pieces.any (fun pc =>
    pc.owner == player && R.royal_types.contains pc.piece_type &&
      is_attacked R p (pc.x, pc.y) (opponent_of player))

/-! ## Position mutation (spec §4.3) -/

/-- Modelled from the spec (§4.3): `apply(position, move)` moves the piece,
removes and records any captured piece, flips side-to-move, bumps the ply
counter, updates the rights via the variant rule, and returns the undo
token.  A promotion replaces the moved piece's type; without one the type is
kept (promotion is never inferred).  An empty origin square is an internal
invariant violation (§7), modelled as a no-op token. -/
def apply (R : Rules) (p : Position) (m : Move) : Position × UndoToken :=
  match pieceAt p m.fromSq with
  | none => (p, ⟨none, none, m.toSq, p.whos_turn, p.ply, p.rights⟩)
  | some mover =>
    let captured := if m.toSq ≠ m.fromSq then pieceAt p m.toSq else none
    let moved' : Piece :=
      { mover with x := m.toSq.1, y := m.toSq.2,
                   piece_type := m.promotion.getD mover.piece_type }
    ({ p with pieces := moved' :: removeAt (removeAt p.pieces m.fromSq) m.toSq,
              whos_turn := (p.whos_turn + 1) % 2,
              ply := p.ply + 1,
              rights := R.rights_update p m },
     ⟨some mover, captured, m.toSq, p.whos_turn, p.ply, p.rights⟩)

/-- Modelled from the spec (§4.3): `undo(position, UndoToken)` restores
exactly the prior state: the moved piece goes back to its origin, the
captured piece reappears on the destination, and side-to-move, ply and
rights bits are restored. -/
def undo (p : Position) (u : UndoToken) : Position :=
  match u.moved with
  | none => { p with whos_turn := u.prev_turn, ply := u.prev_ply, rights := u.prev_rights }
  | some mover =>
    let base := removeAt p.pieces u.toSq
    let withCaptured := match u.captured with
      | some c => c :: base
      | none => base
    { p with pieces := mover :: withCaptured,
             whos_turn := u.prev_turn, ply := u.prev_ply, rights := u.prev_rights }

/-- Observable identity of two positions in the spec's sense (§4.3): the
same piece layout (square→piece mapping), side-to-move, rights — and also
ply, dimensions and tiles. -/
def observEq (q p : Position) : Prop :=
  (∀ sq, pieceAt q sq = pieceAt p sq) ∧ q.whos_turn = p.whos_turn ∧
    q.rights = p.rights ∧ q.ply = p.ply ∧ q.dimensions = p.dimensions ∧ q.tiles = p.tiles

/-! ## Move generator (spec §4.2) -/

/-- Modelled from the spec (§4.2): for every square occupied by a piece of
the side to move, take its pseudo-moves, tentatively apply each candidate,
and discard it when `in_check(result, moving_side)` holds — the standard
`legal = pseudo-legal minus self-check` filter, in a deterministic order. -/
def legal_moves (R : Rules) (p : Position) : List Move :=
  (p.pieces.filter (fun pc => pc.owner == p.whos_turn)).flatMap (fun pc =>
    (R.pseudo_moves p (pc.x, pc.y)).filterMap (fun dst =>
      let m : Move := ⟨(pc.x, pc.y), dst, none⟩
      if in_check R (apply R p m).1 p.whos_turn then none else some m))

/-- Modelled from the spec (§4.2): `count_legal_moves(position)` — the cheap
existence/terminal check. -/
def count_legal_moves (R : Rules) (p : Position) : Nat :=
  (legal_moves R p).length

/-- Modelled from the spec (§4.2): zero legal moves combined with `in_check`
true signals checkmate-equivalent. -/
def checkmate_equivalent (R : Rules) (p : Position) : Prop :=
  legal_moves R p = [] ∧ in_check R p p.whos_turn = true

/-- Modelled from the spec (§4.2): zero legal moves with `in_check` false
signals stalemate-equivalent. -/
def stalemate_equivalent (R : Rules) (p : Position) : Prop :=
  legal_moves R p = [] ∧ in_check R p p.whos_turn = false

/-- Modelled from the spec (§6): the `(from, to)` tuples of the legal moves,
the query `room.rs` calls `get_legal_moves_as_tuples`. -/
def get_legal_moves_as_tuples (R : Rules) (p : Position) : List ((Nat × Nat) × (Nat × Nat)) :=
  (legal_moves R p).map (fun m => (m.fromSq, m.toSq))

/-! ## Search engine (spec §4.4) -/

/-- Modelled from the spec (§4.4): the large positive magnitude of the
checkmate-equivalent loss score. -/
def mate_value : Int := 1000000

/-- Modelled from the spec (§4.4): the move loop of one negamax node —
each child's score is negated, the window swapped, the maximal score and its
move are kept, and the node stops once a child's score meets or exceeds
`beta`.  `child` is the depth-reduced recursive search. -/
def search_moves (R : Rules) (child : Position → Int → Int → Int × Option Move)
    (p : Position) : List Move → Int → Int → Int → Option Move → Int × Option Move
  | [], _, _, best, bestMv => (best, bestMv)
  | m :: rest, alpha, beta, best, bestMv =>
    let score := -(child (apply R p m).1 (-beta) (-alpha)).1
    let keep := bestMv.isNone || best < score
    let best' := if keep then score else best
    let bestMv' := if keep then some m else bestMv
    if beta ≤ best' then (best', bestMv')
    else search_moves R child p rest (max alpha score) beta best' bestMv'

/-- Modelled from the spec (§4.4): `search(position, depth, alpha, beta)` —
at depth 0 the static evaluation `E`; with no legal move a large negative
score when in check (checkmate-equivalent) or a draw score otherwise; else
the negamax loop over the legal moves in generator order. -/
def search (R : Rules) (E : Position → Int) :
    Nat → Position → Int → Int → Int × Option Move
  | 0, p, _, _ => (E p, none)
  | d + 1, p, alpha, beta =>
    match legal_moves R p with
    | [] => (if in_check R p p.whos_turn then -mate_value else 0, none)
    | m :: rest =>
      search_moves R (fun q a b => search R E d q a b) p (m :: rest) alpha beta 0 none

/-- Modelled from the spec (§4.4): `play_best_move(depth)` runs `search` at
the requested depth from the current position with a full window and, if a
best move was found, commits it permanently via `apply`; with no legal move
it returns false and leaves the position unchanged. -/
def play_best_move (R : Rules) (E : Position → Int) (p : Position) (depth : Nat) :
    Bool × Position :=
  match (search R E depth p (-mate_value) mate_value).2 with
  | some m => (true, (apply R p m).1)
  | none => (false, p)

/-! ## Server-facing entry point (spec §6) -/

/-- Modelled from the spec (§6): `make_move(move_generator, x1, y1, x2, y2)`
looks up whether `(x1,y1)→(x2,y2)` is among the legal moves; if so applies
it permanently and returns true; otherwise returns false and leaves the
position unchanged. -/
def make_move (R : Rules) (p : Position) (x1 y1 x2 y2 : Nat) : Bool × Position :=
  match (legal_moves R p).find? (fun m => m.fromSq == (x1, y1) && m.toSq == (x2, y2)) with
  | some m => (true, (apply R p m).1)
  | none => (false, p)

/-- Modelled from the spec (§6): the server's read-only enumeration of all
`(owner, x, y, piece_type)` tuples currently on the board. -/
def pieces_as_tuples (p : Position) : List (Nat × Nat × Nat × Char) :=
  p.pieces.map (fun pc => (pc.owner, pc.x, pc.y, pc.piece_type))

/-- Modelled from the spec (§6): the server's read-only enumeration of all
`(x, y, tile_type)` tuples. -/
def tiles_as_tuples (p : Position) : List (Nat × Nat × Char) :=
  p.tiles.map (fun t => (t.x, t.y, t.tile_type))

/-! ## Server room (embedded from `protochess-server-rs/src/room.rs`)

Clients, turns and the response messages are the shapes `room.rs`
constructs (`client_message` structs as used there); `Uuid` is modelled as a
natural number.  The engine collaborator (`Game`, `make_move`, `in_check`,
`count_legal_moves`, the tuple queries) is the spec-modelled engine above.
One iteration of the `Room::run` receive loop is the step function
`Room.step`, returning the new room state and the list of
`(client id, response)` pairs sent by `try_send`. -/

/-- A connected client: `client.rs`'s id (Uuid, modelled as `Nat`) and name,
as read by `room.rs`. -/
structure Client where
  id : Nat
  name : String
deriving DecidableEq

/-- `client_message::Turn` as used by `room.rs`: optional promotion plus the
`from` and `to` squares. -/
structure Turn where
  promote_to : Option Char
  fromSq : Nat × Nat
  toSq : Nat × Nat
deriving DecidableEq

/-- `client_message::Piece` as constructed in `Room::serialize_game`. -/
structure MsgPiece where
  owner : Nat
  x : Nat
  y : Nat
  piece_type : Char
deriving DecidableEq

/-- `client_message::Tile` as constructed in `Room::serialize_game`. -/
structure MsgTile where
  x : Nat
  y : Nat
  tile_type : Char
deriving DecidableEq

/-- The payload of `ClientResponse::GameState` as built by
`Room::serialize_game`. -/
structure GameStateData where
  width : Nat
  height : Nat
  winner : Option String
  to_move : Nat
  to_move_in_check : Bool
  in_check_kings : Option (List MsgPiece)
  last_turn : Option Turn
  tiles : List MsgTile
  pieces : List MsgPiece
deriving DecidableEq

/-- The `ClientRequest` variants `Room::run` matches on; `OtherRequest`
stands for the variants its `_ => {}` arm ignores. -/
inductive ClientRequest where
  | ChatMessage (m : String)
  | TakeTurn (turn : Turn)
  | GameState
  | StartGame
  | SwitchLeader (new_leader : Nat)
  | ListPlayers
  | MovesFrom (x y : Nat)
  | OtherRequest
deriving DecidableEq

/-- The `ClientResponse` variants `room.rs` sends. -/
inductive ClientResponse where
  | ChatMessage (sender content : String)
  | PlayerList (player_num : Nat) (you : String) (names : List String)
  | MovesFrom (origin : Nat × Nat) (dests : List (Nat × Nat))
  | GameState (data : GameStateData)
deriving DecidableEq

/-- `room_message::RoomMessage` as matched by `Room::run`. -/
inductive RoomMessage where
  | AddClient (c : Client)
  | RemoveClient (id : Nat)
  | External (requester_id : Nat) (req : ClientRequest)
deriving DecidableEq

/-- Modelled from the spec: the Game wrapper `owns one Position` (§3); the
room reads and mutates `game.current_position`. -/
structure Game where
  current_position : Position
deriving DecidableEq

/-- `Game::get_whos_turn` as called by `room.rs`: the position's
side-to-move. -/
def Game.get_whos_turn (g : Game) : Nat :=
  g.current_position.whos_turn

/-- `Game::make_move` as called by `room.rs`: the server entry point of §6
(`make_move` above) acting on the wrapped position, returning the success
flag and the (possibly) mutated game. -/
def game_make_move (R : Rules) (g : Game) (x1 y1 x2 y2 : Nat) : Bool × Game :=
  let r := make_move R g.current_position x1 y1 x2 y2
  (r.1, ⟨r.2⟩)

/-- The room state of `room.rs` (the receiver handle is the step function's
input; clients[0] is the leader). -/
structure Room where
  game : Game
  to_move_in_check : Bool
  winner : Option String
  clients : List Client
  last_turn : Option Turn
deriving DecidableEq

/-- `Room::new`, with the initial game as a parameter: `Game::default()`'s
concrete variant lives in the engine crate, outside the visible sources. -/
def Room.new (g : Game) : Room :=
  ⟨g, false, none, [], none⟩

/-- Messages sent to every client (`Room::broadcast`). -/
def broadcast (clients : List Client) (cr : ClientResponse) : List (Nat × ClientResponse) :=
  clients.map (fun c => (c.id, cr))

/-- Messages sent to everyone except one id (`Room::broadcast_except`). -/
def broadcast_except (clients : List Client) (cr : ClientResponse) (except_id : Nat) :
    List (Nat × ClientResponse) :=
  (clients.filter (fun c => !(c.id == except_id))).map (fun c => (c.id, cr))

/-- `Room::broadcast_player_list`: each client gets its own index (as `u8`,
hence mod 256), its name and the full name list. -/
def broadcast_player_list (clients : List Client) : List (Nat × ClientResponse) :=
  clients.enum.map (fun ic =>
    (ic.2.id, ClientResponse.PlayerList (ic.1 % 256) ic.2.name (clients.map Client.name)))

/-- `Vec::swap` on the client list (used by `SwitchLeader`). -/
def swap_clients (l : List Client) (i j : Nat) : List Client :=
  (l.set i (l.getD j ⟨0, ""⟩)).set j (l.getD i ⟨0, ""⟩)

/-- `Room::serialize_game`, embedded from `room.rs` lines 153-207: the board
as tuples mapped into message structs, plus `in_check_kings` — `Some` of the
side-to-move's pieces whose `piece_type` is `'k'` when `to_move_in_check`,
`None` otherwise. -/
def Room.game_state_data (room : Room) : GameStateData :=
  let width := room.game.current_position.dimensions.width
  let height := room.game.current_position.dimensions.height
  let pieces := (pieces_as_tuples room.game.current_position).map
    (fun q => MsgPiece.mk q.1 q.2.1 q.2.2.1 q.2.2.2)
  let tiles := (tiles_as_tuples room.game.current_position).map
    (fun q => MsgTile.mk q.1 q.2.1 q.2.2)
  let to_move := room.game.current_position.whos_turn
  let in_check_kings :=
    if room.to_move_in_check then
      some (((pieces_as_tuples room.game.current_position).filter
        (fun q => q.1 == to_move && q.2.2.2 == 'k')).map
        (fun q => MsgPiece.mk q.1 q.2.1 q.2.2.1 q.2.2.2))
    else none
  ⟨width, height, room.winner, to_move, room.to_move_in_check,
    in_check_kings, room.last_turn, tiles, pieces⟩

/-- `Room::serialize_game`'s response value. -/
def Room.serialize_game (room : Room) : ClientResponse :=
  ClientResponse.GameState room.game_state_data

/-- One iteration of `Room::run`'s receive loop (`room.rs` lines 40-146),
embedded arm by arm.  The `player_num as u8` comparisons of the `TakeTurn`,
`ListPlayers` and `MovesFrom` arms are the `usize → u8` truncation, i.e.
`player_num % 256`.  The one-argument `move_gen.in_check(&mut position)`
call (`Calculate if the position is in check after making this move`) is the
spec's `in_check` at the new position's side to move. -/
def Room.step (R : Rules) (room : Room) (msg : RoomMessage) :
    Room × List (Nat × ClientResponse) :=
  match msg with
  | .AddClient c =>
    let clients' := room.clients ++ [c]
    ({ room with clients := clients' },
     (c.id, room.serialize_game) :: broadcast_player_list clients')
  | .RemoveClient cid =>
    match room.clients.findIdx? (fun x => x.id == cid) with
    | some index =>
      let clients' := room.clients.eraseIdx index
      ({ room with clients := clients' }, broadcast_player_list clients')
    | none => (room, [])
  | .External requester_id req =>
    match room.clients.findIdx? (fun x => x.id == requester_id) with
    | none => (room, [])
    | some player_num =>
      let requester := room.clients.getD player_num ⟨0, ""⟩
      match req with
      | .ChatMessage m =>
        (room, broadcast_except room.clients (.ChatMessage requester.name m) requester_id)
      | .TakeTurn turn =>
        if player_num % 256 == room.game.get_whos_turn then
          let mv := game_make_move R room.game turn.fromSq.1 turn.fromSq.2 turn.toSq.1 turn.toSq.2
          if mv.1 then
            let game' := mv.2
            let in_check' := in_check R game'.current_position game'.current_position.whos_turn
            let winner' :=
              if in_check' && (count_legal_moves R game'.current_position == 0)
              then some requester.name else room.winner
            let room' := { room with
              game := game',
              last_turn := some ⟨none, turn.fromSq, turn.toSq⟩,
              to_move_in_check := in_check',
              winner := winner' }
            (room', broadcast room'.clients room'.serialize_game)
          else (room, [])
        else (room, [])
      | .GameState => (room, [(requester_id, room.serialize_game)])
      | .StartGame => (room, [])
      | .SwitchLeader new_leader =>
        if player_num == 0 && new_leader < room.clients.length then
          ({ room with clients := swap_clients room.clients 0 new_leader }, [])
        else (room, [])
      | .ListPlayers =>
        (room, [(requester_id,
          .PlayerList (player_num % 256) requester.name (room.clients.map Client.name))])
      | .MovesFrom x y =>
        if player_num % 256 == room.game.current_position.whos_turn then
          let possible := (get_legal_moves_as_tuples R room.game.current_position).filterMap
            (fun ft => if ft.1 == (x, y) then some ft.2 else none)
          (room, [(requester_id, .MovesFrom (x, y) possible)])
        else (room, [])
      | .OtherRequest => (room, [])

/-! ## A concrete variant instance

A miniature variant used to evaluate the theorems at concrete inputs: a
3×1 board; every piece slides to any square strictly to its right (within
the board width); `'k'` is the royal type; the rights bits never change. -/

/-- A concrete evaluator (§4.4 lets implementers plug in any static
evaluation). -/
def demoEval : Position → Int := fun _ => 0

/-- The miniature variant's rules. -/
def demoRules : Rules :=
  ⟨fun p sq => (List.range p.dimensions.width).filterMap
      (fun x' => if sq.1 < x' then some (x', sq.2) else none),
   ['k'],
   fun p _ => p.rights⟩

/-- Player 0's king on (0,0), player 1's king on (2,0), player 0 to move. -/
def demoPosition : Position :=
  ⟨⟨3, 1⟩, [⟨0, 0, 0, 'k'⟩, ⟨1, 2, 0, 'k'⟩], [], 0, [], 0⟩

/-- The move (0,0)→(1,0) of the miniature variant. -/
def demoMove : Move := ⟨(0, 0), (1, 0), none⟩

/-- The turn request (0,0)→(1,0). -/
def demoTurn : Turn := ⟨none, (0, 0), (1, 0)⟩

/-- A one-client room over the miniature variant: client 5 (named `a`) is
player 0 and it is player 0's move. -/
def demoRoom1 : Room :=
  ⟨⟨demoPosition⟩, false, none, [⟨5, "a"⟩], none⟩

/-- A two-client room over the miniature variant: client 5 is player 0,
client 7 is player 1, and it is player 0's move. -/
def demoRoom2 : Room :=
  ⟨⟨demoPosition⟩, false, none, [⟨5, "a"⟩, ⟨7, "b"⟩], none⟩

/-- 257 clients: client `i` has id `i`.  The client at index 256 is not
player 0, but its index truncated to `u8` is 0. -/
def clients257 : List Client :=
  (List.range 257).map (fun i => ⟨i, "c"⟩)

/-- A 257-client room over the miniature variant with player 0 to move. -/
def demoRoom257 : Room :=
  ⟨⟨demoPosition⟩, false, none, clients257, none⟩

example : legal_moves demoRules demoPosition = [⟨(0, 0), (1, 0), none⟩, ⟨(0, 0), (2, 0), none⟩] := by
  decide
example : make_move demoRules demoPosition 0 0 1 0 =
    (true, ⟨⟨3, 1⟩, [⟨0, 1, 0, 'k'⟩, ⟨1, 2, 0, 'k'⟩], [], 1, [], 1⟩) := by decide
example : in_check demoRules (make_move demoRules demoPosition 0 0 1 0).2 1 = true := by decide
example : count_legal_moves demoRules (make_move demoRules demoPosition 0 0 1 0).2 = 0 := by decide
example : make_move demoRules demoPosition 2 0 1 0 = (false, demoPosition) := by decide
example : play_best_move demoRules demoEval demoPosition 1 =
    (true, (apply demoRules demoPosition demoMove).1) := by decide

/-! ## Helper lemmas -/

theorem pieceAtList_cons (pc : Piece) (l : List Piece) (sq : Nat × Nat) :
    pieceAtList (pc :: l) sq =
      if (pc.x, pc.y) = sq then some pc else pieceAtList l sq := by
  by_cases h : (pc.x, pc.y) = sq
  · simp [pieceAtList, List.find?_cons_of_pos, h]
  · simp only [pieceAtList] at *
    rw [List.find?_cons_of_neg]
    · simp [h]
    · simp [h]

theorem removeAt_cons (pc : Piece) (l : List Piece) (s : Nat × Nat) :
    removeAt (pc :: l) s =
      if (pc.x, pc.y) = s then removeAt l s else pc :: removeAt l s := by
  by_cases h : (pc.x, pc.y) = s
  · simp [removeAt, List.filter_cons, h]
  · simp [removeAt, List.filter_cons, h]

theorem pieceAtList_removeAt_self (l : List Piece) (sq : Nat × Nat) :
    pieceAtList (removeAt l sq) sq = none := by
  induction l with
  | nil => rfl
  | cons pc rest ih =>
    rw [removeAt_cons]
    by_cases h : (pc.x, pc.y) = sq
    · rw [if_pos h]; exact ih
    · rw [if_neg h, pieceAtList_cons, if_neg h]; exact ih

theorem pieceAtList_removeAt_ne (l : List Piece) (s sq : Nat × Nat) (h : s ≠ sq) :
    pieceAtList (removeAt l s) sq = pieceAtList l sq := by
  induction l with
  | nil => rfl
  | cons pc rest ih =>
    rw [removeAt_cons, pieceAtList_cons]
    by_cases hp : (pc.x, pc.y) = s
    · have hpsq : (pc.x, pc.y) ≠ sq := by rw [hp]; exact h
      rw [if_pos hp, if_neg hpsq]; exact ih
    · rw [if_neg hp, pieceAtList_cons]
      by_cases hq : (pc.x, pc.y) = sq
      · rw [if_pos hq, if_pos hq]
      · rw [if_neg hq, if_neg hq]; exact ih

theorem pieceAt_mem_sq {p : Position} {sq : Nat × Nat} {pc : Piece}
    (h : pieceAt p sq = some pc) : (pc.x, pc.y) = sq := by
  have h' : List.find? (fun q => (q.x, q.y) == sq) p.pieces = some pc := h
  simpa using List.find?_some h'

theorem undo_apply (R : Rules) (p : Position) (m : Move) :
    observEq (undo (apply R p m).1 (apply R p m).2) p := by
  cases h : pieceAt p m.fromSq with
  | none =>
    simp only [apply, h, undo]
    exact ⟨fun sq => rfl, rfl, rfl, rfl, rfl, rfl⟩
  | some mover =>
    have hmov : (mover.x, mover.y) = m.fromSq := pieceAt_mem_sq h
    simp only [apply, h, undo]
    refine ⟨?_, rfl, rfl, rfl, rfl, rfl⟩
    intro sq
    simp only [pieceAt]
    by_cases hf : m.fromSq = sq
    · rw [pieceAtList_cons, if_pos (hmov.trans hf), ← hf]
      exact h.symm
    · rw [pieceAtList_cons, if_neg (fun e => hf (hmov ▸ e))]
      by_cases ht : m.toSq = sq
      · have hne : m.toSq ≠ m.fromSq := fun e => hf (e ▸ ht)
        rw [if_pos hne]
        cases hc : pieceAtList p.pieces m.toSq with
        | some c =>
          have hcq : (c.x, c.y) = m.toSq := pieceAt_mem_sq hc
          simp only []
          rw [pieceAtList_cons, if_pos (hcq.trans ht), ← ht]
          exact hc.symm
        | none =>
          simp only []
          rw [← ht, removeAt_cons, if_pos rfl, pieceAtList_removeAt_self]
          exact hc.symm
      · have hto2 : ¬((m.toSq.1, m.toSq.2) = sq) := fun e => ht (by simpa using e)
        cases hcap : (if m.toSq ≠ m.fromSq then pieceAtList p.pieces m.toSq else none) with
        | some c =>
          have hguard : pieceAtList p.pieces m.toSq = some c := by
            by_cases hg : m.toSq ≠ m.fromSq
            · rwa [if_pos hg] at hcap
            · rw [if_neg hg] at hcap; exact absurd hcap (by simp)
          have hcq : (c.x, c.y) = m.toSq := pieceAt_mem_sq hguard
          simp only []
          rw [pieceAtList_cons, if_neg (fun e => ht (hcq ▸ e)),
            removeAt_cons, if_pos rfl,
            pieceAtList_removeAt_ne _ _ _ ht,
            pieceAtList_removeAt_ne _ _ _ ht, pieceAtList_removeAt_ne _ _ _ hf]
        | none =>
          simp only []
          rw [removeAt_cons, if_pos rfl,
            pieceAtList_removeAt_ne _ _ _ ht,
            pieceAtList_removeAt_ne _ _ _ ht, pieceAtList_removeAt_ne _ _ _ hf]

theorem mem_legal_moves {R : Rules} {p : Position} {m : Move} (h : m ∈ legal_moves R p) :
    (∃ pc ∈ p.pieces, pc.owner = p.whos_turn ∧ m.fromSq = (pc.x, pc.y) ∧
      m.toSq ∈ R.pseudo_moves p (pc.x, pc.y) ∧ m.promotion = none) ∧
    in_check R (apply R p m).1 p.whos_turn = false := by
  simp only [legal_moves, List.mem_flatMap, List.mem_filterMap, List.mem_filter] at h
  obtain ⟨pc, ⟨hpc, hown⟩, dst, hdst, hsome⟩ := h
  by_cases hchk : in_check R (apply R p ⟨(pc.x, pc.y), dst, none⟩).1 p.whos_turn = true
  · rw [if_pos hchk] at hsome
    exact absurd hsome (by simp)
  · rw [if_neg hchk] at hsome
    obtain rfl : (⟨(pc.x, pc.y), dst, none⟩ : Move) = m := Option.some.inj hsome
    exact ⟨⟨pc, hpc, by simpa using hown, rfl, hdst, rfl⟩, by simpa using hchk⟩

theorem pieceAt_fromSq_of_mem {R : Rules} {p : Position} {m : Move}
    (h : m ∈ legal_moves R p) : ∃ pc, pieceAt p m.fromSq = some pc := by
  obtain ⟨⟨pc, hpc, _, hfrom, _, _⟩, _⟩ := mem_legal_moves h
  cases hq : pieceAt p m.fromSq with
  | some q => exact ⟨q, rfl⟩
  | none =>
    have hall : ∀ x ∈ p.pieces, ¬((x.x, x.y) == m.fromSq) = true := by
      have hq' : List.find? (fun q => (q.x, q.y) == m.fromSq) p.pieces = none := hq
      exact List.find?_eq_none.mp hq'
    exact absurd (by simp [hfrom.symm]) (hall pc hpc)

theorem apply_turn_of_mem {R : Rules} {p : Position} {m : Move}
    (h : m ∈ legal_moves R p) :
    (apply R p m).1.whos_turn = (p.whos_turn + 1) % 2 := by
  obtain ⟨pc, hpc⟩ := pieceAt_fromSq_of_mem h
  simp [apply, hpc]

theorem search_moves_snd {R : Rules} {child : Position → Int → Int → Int × Option Move}
    {p : Position} :
    ∀ (l : List Move) (alpha beta best : Int) (bm : Option Move),
      (search_moves R child p l alpha beta best bm).2 = bm ∨
        ∃ m ∈ l, (search_moves R child p l alpha beta best bm).2 = some m := by
  intro l
  induction l with
  | nil => intro _ _ _ bm; exact Or.inl rfl
  | cons m rest ih =>
    intro alpha beta best bm
    simp only [search_moves]
    generalize -(child (apply R p m).1 (-beta) (-alpha)).1 = score
    by_cases hk : (bm.isNone || decide (best < score)) = true
    · simp only [hk, if_true]
      by_cases hb : beta ≤ score
      · rw [if_pos hb]
        exact Or.inr ⟨m, List.mem_cons_self m rest, rfl⟩
      · rw [if_neg hb]
        rcases ih (max alpha score) beta score (some m) with h | ⟨m', hm', h⟩
        · exact Or.inr ⟨m, List.mem_cons_self m rest, h⟩
        · exact Or.inr ⟨m', List.mem_cons_of_mem m hm', h⟩
    · simp only [hk, Bool.false_eq_true, if_false]
      by_cases hb : beta ≤ best
      · rw [if_pos hb]
        exact Or.inl rfl
      · rw [if_neg hb]
        rcases ih (max alpha score) beta best bm with h | ⟨m', hm', h⟩
        · exact Or.inl h
        · exact Or.inr ⟨m', List.mem_cons_of_mem m hm', h⟩

theorem search_moves_snd_some {R : Rules} {child : Position → Int → Int → Int × Option Move}
    {p : Position} (m : Move) (rest : List Move) (alpha beta best : Int) :
    ∃ m' ∈ m :: rest, (search_moves R child p (m :: rest) alpha beta best none).2 = some m' := by
  simp only [search_moves]
  generalize -(child (apply R p m).1 (-beta) (-alpha)).1 = score
  simp only [Option.isNone_none, Bool.true_or, if_true]
  by_cases hb : beta ≤ score
  · rw [if_pos hb]
    exact ⟨m, List.mem_cons_self m rest, rfl⟩
  · rw [if_neg hb]
    rcases search_moves_snd rest (max alpha score) beta score (some m) with h | ⟨m', hm', h⟩
    · exact ⟨m, List.mem_cons_self m rest, h⟩
    · exact ⟨m', List.mem_cons_of_mem m hm', h⟩

theorem search_snd_of_ne {R : Rules} {E : Position → Int} {d : Nat} {p : Position}
    {alpha beta : Int} (hne : legal_moves R p ≠ []) :
    ∃ m ∈ legal_moves R p, (search R E (d + 1) p alpha beta).2 = some m := by
  cases hl : legal_moves R p with
  | nil => exact absurd hl hne
  | cons m rest =>
    simp only [search, hl]
    exact search_moves_snd_some m rest alpha beta 0

theorem search_snd_of_empty {R : Rules} {E : Position → Int} {d : Nat} {p : Position}
    {alpha beta : Int} (he : legal_moves R p = []) :
    (search R E (d + 1) p alpha beta).2 = none := by
  simp [search, he]

/-! ## The claims -/

/-- C1: for every position and coordinate quadruple, `make_move` returns
true and permanently applies the move exactly when (x1,y1)→(x2,y2) is among
the legal moves of the position; otherwise it returns false and the
position is left completely unchanged (a total function — no error or
exception path). -/
theorem c1_make_move_contract (R : Rules) (p : Position) (x1 y1 x2 y2 : Nat) :
    ((make_move R p x1 y1 x2 y2).1 = true ↔
      ∃ m ∈ legal_moves R p, m.fromSq = (x1, y1) ∧ m.toSq = (x2, y2)) ∧
    ((make_move R p x1 y1 x2 y2).1 = true →
      ∃ m ∈ legal_moves R p, m.fromSq = (x1, y1) ∧ m.toSq = (x2, y2) ∧
        (make_move R p x1 y1 x2 y2).2 = (apply R p m).1) ∧
    ((make_move R p x1 y1 x2 y2).1 = false →
      (make_move R p x1 y1 x2 y2).2 = p) := by
  cases hf : (legal_moves R p).find? (fun m => m.fromSq == (x1, y1) && m.toSq == (x2, y2)) with
  | some m =>
    have hm := List.mem_of_find?_eq_some hf
    have hpred := List.find?_some hf
    simp only [Bool.and_eq_true, beq_iff_eq] at hpred
    refine ⟨?_, ?_, ?_⟩
    · exact ⟨fun _ => ⟨m, hm, hpred.1, hpred.2⟩, fun _ => by simp [make_move, hf]⟩
    · exact fun _ => ⟨m, hm, hpred.1, hpred.2, by simp [make_move, hf]⟩
    · intro hfalse
      simp [make_move, hf] at hfalse
  | none =>
    have hno := List.find?_eq_none.mp hf
    refine ⟨?_, ?_, ?_⟩
    · constructor
      · intro htrue
        simp [make_move, hf] at htrue
      · rintro ⟨m, hm, h1, h2⟩
        exact absurd (by simp [h1, h2]) (hno m hm)
    · intro htrue
      simp [make_move, hf] at htrue
    · intro _
      simp [make_move, hf]

/-- C3: for every position `p` and every move `m` in its legal moves,
applying `m` and then undoing with the returned token restores `p` exactly:
the same piece layout (square→piece mapping), the same side-to-move, and
the same rights (undo is a left inverse of apply on legal moves). -/
theorem c3_undo_apply_roundtrip (R : Rules) (p : Position) (m : Move)
    (h : m ∈ legal_moves R p) :
    observEq (undo (apply R p m).1 (apply R p m).2) p :=
  undo_apply R p m

/-- Witness for C3 at the miniature variant. -/
theorem c3_undo_apply_roundtrip_witness :
    demoMove ∈ legal_moves demoRules demoPosition ∧
    observEq (undo (apply demoRules demoPosition demoMove).1
        (apply demoRules demoPosition demoMove).2) demoPosition :=
  ⟨by decide,
   c3_undo_apply_roundtrip demoRules demoPosition demoMove (by decide)⟩

/-- C4: every legal move leaves no royal piece of the moving side attacked
in the resulting position — `legal_moves` keeps exactly the pseudo-legal
moves whose application does not leave the mover in check. -/
theorem c4_legal_moves_no_self_check (R : Rules) (p : Position) (m : Move)
    (h : m ∈ legal_moves R p) :
    in_check R (apply R p m).1 p.whos_turn = false :=
  (mem_legal_moves h).2

/-- Witness for C4 at the miniature variant. -/
theorem c4_legal_moves_no_self_check_witness :
    demoMove ∈ legal_moves demoRules demoPosition ∧
    in_check demoRules (apply demoRules demoPosition demoMove).1
      demoPosition.whos_turn = false :=
  ⟨by decide,
   c4_legal_moves_no_self_check demoRules demoPosition demoMove (by decide)⟩

/-- C5: `count_legal_moves` is zero exactly on checkmate-equivalent or
stalemate-equivalent positions, and `in_check` of the side to move
distinguishes the two. -/
theorem c5_terminal_classification (R : Rules) (p : Position) :
    (count_legal_moves R p = 0 ↔
      (checkmate_equivalent R p ∨ stalemate_equivalent R p)) ∧
    ((count_legal_moves R p = 0 ∧ in_check R p p.whos_turn = true) ↔
      checkmate_equivalent R p) ∧
    ((count_legal_moves R p = 0 ∧ in_check R p p.whos_turn = false) ↔
      stalemate_equivalent R p) := by
  have hlen : count_legal_moves R p = 0 ↔ legal_moves R p = [] := List.length_eq_zero
  refine ⟨⟨fun h0 => ?_, fun h => ?_⟩, ⟨fun h => ⟨hlen.mp h.1, h.2⟩, fun h => ⟨hlen.mpr h.1, h.2⟩⟩,
    ⟨fun h => ⟨hlen.mp h.1, h.2⟩, fun h => ⟨hlen.mpr h.1, h.2⟩⟩⟩
  · cases hchk : in_check R p p.whos_turn with
    | false => exact Or.inr ⟨hlen.mp h0, hchk⟩
    | true => exact Or.inl ⟨hlen.mp h0, hchk⟩
  · rcases h with ⟨he, _⟩ | ⟨he, _⟩ <;> exact hlen.mpr he

/-- C6: `legal_moves` and `search` are deterministic — on identical inputs
they return identical outputs (both are pure functions of the position). -/
theorem c6_determinism (R : Rules) (E : Position → Int) (p q : Position)
    (depth : Nat) (alpha beta : Int) (h : p = q) :
    legal_moves R p = legal_moves R q ∧
    search R E depth p alpha beta = search R E depth q alpha beta := by
  subst h
  exact ⟨rfl, rfl⟩

/-- Witness for C6 at the miniature variant. -/
theorem c6_determinism_witness :
    legal_moves demoRules demoPosition = legal_moves demoRules demoPosition ∧
    search demoRules demoEval 2 demoPosition (-mate_value) mate_value =
      search demoRules demoEval 2 demoPosition (-mate_value) mate_value :=
  c6_determinism demoRules demoEval demoPosition demoPosition 2 (-mate_value) mate_value rfl

/-- C7: `in_check` returns true exactly when some royal piece of the player
stands on a square attacked by the opponent; with zero royal pieces it
returns false, and with multiple royal pieces each one's square counts —
nothing assumes exactly one exists. -/
theorem c7_in_check_characterization (R : Rules) (p : Position) (player : Nat) :
    (in_check R p player = true ↔
      ∃ pc ∈ p.pieces, pc.owner = player ∧ pc.piece_type ∈ R.royal_types ∧
        is_attacked R p (pc.x, pc.y) (opponent_of player) = true) ∧
    ((∀ pc ∈ p.pieces, ¬(pc.owner = player ∧ pc.piece_type ∈ R.royal_types)) →
      in_check R p player = false) := by
  have hiff : in_check R p player = true ↔
      ∃ pc ∈ p.pieces, pc.owner = player ∧ pc.piece_type ∈ R.royal_types ∧
        is_attacked R p (pc.x, pc.y) (opponent_of player) = true := by
    simp [in_check, List.any_eq_true, Bool.and_eq_true, beq_iff_eq, and_assoc]
  refine ⟨hiff, fun hno => ?_⟩
  cases hc : in_check R p player with
  | false => rfl
  | true =>
    obtain ⟨pc, hpc, hown, hroyal, _⟩ := hiff.mp hc
    exact absurd ⟨hown, hroyal⟩ (hno pc hpc)

/-- C2: for every depth ≥ 1, `play_best_move` returns false and leaves the
position unchanged exactly when the side to move has no legal moves; on any
non-terminal position it returns true, commits exactly one legal move via
`apply` with no matching undo, and advances side-to-move exactly once. -/
theorem c2_play_best_move_contract (R : Rules) (E : Position → Int) (p : Position)
    (depth : Nat) (h : 1 ≤ depth) :
    (legal_moves R p = [] → play_best_move R E p depth = (false, p)) ∧
    (legal_moves R p ≠ [] →
      ∃ m ∈ legal_moves R p,
        play_best_move R E p depth = (true, (apply R p m).1) ∧
        (apply R p m).1.whos_turn = (p.whos_turn + 1) % 2) := by
  obtain ⟨d, rfl⟩ : ∃ d, depth = d + 1 := ⟨depth - 1, (Nat.succ_pred_eq_of_pos h).symm⟩
  constructor
  · intro he
    have hs := @search_snd_of_empty R E d p (-mate_value) mate_value he
    simp [play_best_move, hs]
  · intro hne
    obtain ⟨m, hm, hsnd⟩ := @search_snd_of_ne R E d p (-mate_value) mate_value hne
    exact ⟨m, hm, by simp [play_best_move, hsnd], apply_turn_of_mem hm⟩

/-- Witness for C2 at the miniature variant, depth 1. -/
theorem c2_play_best_move_contract_witness :
    (legal_moves demoRules demoPosition = [] →
      play_best_move demoRules demoEval demoPosition 1 = (false, demoPosition)) ∧
    (legal_moves demoRules demoPosition ≠ [] →
      ∃ m ∈ legal_moves demoRules demoPosition,
        play_best_move demoRules demoEval demoPosition 1 =
          (true, (apply demoRules demoPosition m).1) ∧
        (apply demoRules demoPosition m).1.whos_turn =
          (demoPosition.whos_turn + 1) % 2) :=
  c2_play_best_move_contract demoRules demoEval demoPosition 1 (by decide)

/-- C8 (amended): a TakeTurn request mutates the room only if the
requester's index in the client list, truncated to `u8` (mod 256), equals
the side-to-move; a TakeTurn from a registered client whose truncated index
differs, or from an unknown client id, leaves the whole room (game,
last_turn, to_move_in_check, winner, clients) unchanged and sends
nothing. -/
theorem c8_turn_enforcement (R : Rules) (room : Room) (rid : Nat) (turn : Turn)
    (h : ∀ i, room.clients.findIdx? (fun c => c.id == rid) = some i →
      i % 256 ≠ room.game.current_position.whos_turn) :
    Room.step R room (.External rid (.TakeTurn turn)) = (room, []) := by
  cases hIdx : room.clients.findIdx? (fun c => c.id == rid) with
  | none => simp [Room.step, hIdx]
  | some i =>
    have hne := h i hIdx
    have hbeq : (i % 256 == room.game.get_whos_turn) = false := by
      simp only [Game.get_whos_turn, beq_eq_false_iff_ne, ne_eq]
      exact hne
    simp [Room.step, hIdx, hbeq]

set_option maxRecDepth 100000 in
/-- Counterexample to C8 as stated: in the 257-client room, the client at
index 256 is not the side to move (256 ≠ 0), yet — through the `usize → u8`
truncation of `player_num as u8` — its TakeTurn request mutates the game
and broadcasts a game update. -/
theorem c8_turn_enforcement_cex :
    demoRoom257.clients.findIdx? (fun c => c.id == 256) = some 256 ∧
    (256 : Nat) ≠ demoRoom257.game.current_position.whos_turn ∧
    (Room.step demoRules demoRoom257 (.External 256 (.TakeTurn demoTurn))).1.game ≠
      demoRoom257.game ∧
    (Room.step demoRules demoRoom257 (.External 256 (.TakeTurn demoTurn))).2 ≠ [] := by
  decide

/-- Witness for C8 (amended): client 7 sits at index 1 while player 0 is to
move, so its TakeTurn request is a no-op. -/
theorem c8_turn_enforcement_witness :
    Room.step demoRules demoRoom2 (.External 7 (.TakeTurn demoTurn)) = (demoRoom2, []) :=
  c8_turn_enforcement demoRules demoRoom2 7 demoTurn (fun i hi => by
    have h2 : demoRoom2.clients.findIdx? (fun c => c.id == 7) = some 1 := by decide
    rw [h2] at hi
    injection hi with h3
    subst h3
    decide)

/-- C9: across every step of the room loop, `winner` changes only on a
TakeTurn step whose move succeeds and leaves the new side to move in check
with zero legal moves (checkmate-equivalent), and it is then set to the
mover's name; in particular a successful move producing zero legal moves
without check (stalemate-equivalent) never sets `winner`. -/
theorem c9_winner_only_on_checkmate (R : Rules) (room : Room) (msg : RoomMessage)
    (h : (Room.step R room msg).1.winner ≠ room.winner) :
    ∃ rid turn i g',
      msg = RoomMessage.External rid (ClientRequest.TakeTurn turn) ∧
      room.clients.findIdx? (fun c => c.id == rid) = some i ∧
      game_make_move R room.game turn.fromSq.1 turn.fromSq.2 turn.toSq.1 turn.toSq.2 =
        (true, g') ∧
      in_check R g'.current_position g'.current_position.whos_turn = true ∧
      count_legal_moves R g'.current_position = 0 ∧
      (Room.step R room msg).1.winner = some (room.clients.getD i ⟨0, ""⟩).name := by
  cases msg with
  | AddClient c => exact absurd rfl h
  | RemoveClient cid =>
    cases hI : room.clients.findIdx? (fun c => c.id == cid) with
    | none => simp [Room.step, hI] at h
    | some i => simp [Room.step, hI] at h
  | External rid req =>
    cases hI : room.clients.findIdx? (fun c => c.id == rid) with
    | none => simp [Room.step, hI] at h
    | some i =>
      cases req with
      | ChatMessage m => simp [Room.step, hI] at h
      | GameState => simp [Room.step, hI] at h
      | StartGame => simp [Room.step, hI] at h
      | ListPlayers => simp [Room.step, hI] at h
      | OtherRequest => simp [Room.step, hI] at h
      | SwitchLeader nl =>
        by_cases hsl : (i == 0 && decide (nl < room.clients.length)) = true
        · simp [Room.step, hI, hsl] at h
        · simp [Room.step, hI, hsl] at h
      | MovesFrom x y =>
        by_cases hmf : (i % 256 == room.game.current_position.whos_turn) = true
        · simp [Room.step, hI, hmf] at h
        · simp [Room.step, hI, hmf] at h
      | TakeTurn turn =>
        by_cases hguard : (i % 256 == room.game.get_whos_turn) = true
        · cases hmv : game_make_move R room.game turn.fromSq.1 turn.fromSq.2
            turn.toSq.1 turn.toSq.2 with
          | mk ok g' =>
            cases ok with
            | false => simp [Room.step, hI, hguard, hmv] at h
            | true =>
              by_cases hwin : (in_check R g'.current_position g'.current_position.whos_turn &&
                  (count_legal_moves R g'.current_position == 0)) = true
              · have hw := hwin
                simp only [Bool.and_eq_true, beq_iff_eq] at hw
                refine ⟨rid, turn, i, g', rfl, hI, hmv, hw.1, hw.2, ?_⟩
                simp [Room.step, hI, hguard, hmv, hwin]
              · simp [Room.step, hI, hguard, hmv, hwin] at h
        · simp [Room.step, hI, hguard] at h

/-- Witness for C9: in the one-client room, client 5's move (0,0)→(1,0)
checkmates, so `winner` changes and the conclusion holds concretely. -/
theorem c9_winner_only_on_checkmate_witness :
    ∃ rid turn i g',
      RoomMessage.External 5 (ClientRequest.TakeTurn demoTurn) =
        RoomMessage.External rid (ClientRequest.TakeTurn turn) ∧
      demoRoom1.clients.findIdx? (fun c => c.id == rid) = some i ∧
      game_make_move demoRules demoRoom1.game turn.fromSq.1 turn.fromSq.2
        turn.toSq.1 turn.toSq.2 = (true, g') ∧
      in_check demoRules g'.current_position g'.current_position.whos_turn = true ∧
      count_legal_moves demoRules g'.current_position = 0 ∧
      (Room.step demoRules demoRoom1
        (RoomMessage.External 5 (ClientRequest.TakeTurn demoTurn))).1.winner =
        some (demoRoom1.clients.getD i ⟨0, ""⟩).name :=
  c9_winner_only_on_checkmate demoRules demoRoom1
    (.External 5 (.TakeTurn demoTurn)) (by decide)

/-- C10: the serialized game state has `in_check_kings = Some` exactly when
`to_move_in_check` holds, and then it contains exactly the pieces owned by
the side to move whose type symbol is `'k'` — a royal-equivalent piece with
any other symbol is never reported. -/
theorem c10_in_check_kings (room : Room) :
    (room.game_state_data.in_check_kings ≠ none ↔ room.to_move_in_check = true) ∧
    (∀ l, room.game_state_data.in_check_kings = some l →
      (∀ q : MsgPiece, q ∈ l ↔
        ∃ pc ∈ room.game.current_position.pieces,
          pc.owner = room.game.current_position.whos_turn ∧ pc.piece_type = 'k' ∧
          q = ⟨pc.owner, pc.x, pc.y, pc.piece_type⟩) ∧
      (∀ q ∈ l, q.piece_type = 'k')) := by
  cases hch : room.to_move_in_check with
  | false =>
    refine ⟨by simp [Room.game_state_data, hch], fun l hl => ?_⟩
    simp [Room.game_state_data, hch] at hl
  | true =>
    refine ⟨by simp [Room.game_state_data, hch], fun l hl => ?_⟩
    simp only [Room.game_state_data, hch, if_true, Option.some.injEq] at hl
    subst hl
    constructor
    · intro q
      simp only [List.mem_map, List.mem_filter, pieces_as_tuples, Bool.and_eq_true,
        beq_iff_eq]
      constructor
      · rintro ⟨t, ⟨⟨pc, hpc, rfl⟩, hown, hk⟩, rfl⟩
        exact ⟨pc, hpc, hown, hk, rfl⟩
      · rintro ⟨pc, hpc, hown, hk, rfl⟩
        exact ⟨(pc.owner, pc.x, pc.y, pc.piece_type), ⟨⟨pc, hpc, rfl⟩, hown, hk⟩, rfl⟩
    · intro q hq
      simp only [List.mem_map, List.mem_filter, pieces_as_tuples, Bool.and_eq_true,
        beq_iff_eq] at hq
      obtain ⟨t, ⟨⟨pc, hpc, rfl⟩, hown, hk⟩, rfl⟩ := hq
      exact hk
